import Mathlib

/-!
Verification of the value-synchronization engine of
`src/webapp/src/components/Slider.vue` (the "Value Synchronizer" of the spec).

Modelling conventions (shallow embedding):
* JS numbers are modelled as rationals (`ℚ`); a non-finite value (`NaN`,
  `±Infinity`) produced by `Number(...)` is modelled as `none : Option ℚ`,
  a finite value as `some q`.  Arithmetic on non-finite values poisons the
  result, which `Option.map` reproduces.
* `Math.min` / `Math.max` on finite values are `min` / `max` on `ℚ`.
* `Math.round x` is `⌊x + 1/2⌋` for every finite `x` (half-values round
  toward `+∞`), which is exactly Mathlib's `round` on `ℚ`.
* `String(step)` digit counting: for a step written as a plain decimal
  literal the number of digits after the decimal point is the least `d`
  with `step * 10^d` integral, i.e. `max` of the 2-adic and 5-adic
  multiplicities of the reduced denominator.  For a step that is not a
  finite decimal the JS engine prints up to 17 fractional digits; we use
  the constant 17 for that branch (no claim exercises it).
-/

namespace Slider

/-- The component's props, with the defaults declared in the source
(`min: 0`, `max: 100`, `step: 1`, `modelValue: 1`, `showInput: true`).
`modelValue = none` models an explicit `null` from the parent; an omitted
prop receives the declared default `some 1` (Vue substitutes the default
for `undefined`). -/
structure Props where
  min : ℚ := 0
  max : ℚ := 100
  step : ℚ := 1
  modelValue : Option ℚ := some 1
  showInput : Bool := true
deriving DecidableEq

/-- Fuel-driven multiplicity counter: how many times `p` divides `n`
(for `2 ≤ p`; returns 0 when the fuel runs out, and `fuel = n` always
suffices). -/
def pAdicCountFuel (p : ℕ) : ℕ → ℕ → ℕ
  | 0, _ => 0
  | fuel + 1, n => if 2 ≤ p ∧ p ∣ n ∧ n ≠ 0 then pAdicCountFuel p fuel (n / p) + 1 else 0

/-- Multiplicity of the prime `p` in `n`. -/
def pAdicCount (p n : ℕ) : ℕ := pAdicCountFuel p n n

/-- Computed `stepDecimals`: number of digits after the decimal point of
`String(props.step || 1)`.  `p.step || 1` is the JS falsy fallback: only
`0` (and `NaN`, not representable here) is remapped to `1`; negative
steps pass through. -/
def stepDecimals (p : Props) : ℕ :=
  let step : ℚ := if p.step = 0 then 1 else p.step
  let a := pAdicCount 2 step.den
  let b := pAdicCount 5 step.den
  if step.den = 2 ^ a * 5 ^ b then Max.max a b else 17

/-- Function `roundToStepPrecision(value)`: `Math.round(value * 10^decimals) / 10^decimals`. -/
def roundToStepPrecision (p : Props) (value : ℚ) : ℚ :=
  let factor : ℚ := 10 ^ stepDecimals p
  (round (value * factor) : ℚ) / factor

/-- The computed `snappedValue` as a function of the (finite) stored
`rawSliderValue`: clamp into `[min, max]`, snap to the step lattice
anchored at `min`, re-clamp, round to the step's decimal precision. -/
def snappedValue (p : Props) (raw : ℚ) : ℚ :=
  let step : ℚ := if p.step = 0 then 1 else p.step
  let clampedRaw : ℚ := min p.max (max p.min raw)
  let stepsFromMin : ℤ := round ((clampedRaw - p.min) / step)
  let snapped : ℚ := p.min + (stepsFromMin : ℚ) * step
  let clampedSnapped : ℚ := min p.max (max p.min snapped)
  roundToStepPrecision p clampedSnapped

/-- The mutable state owned by the synchronizer: the stored
`rawSliderValue`.  `some q` is a finite number, `none` a stored
non-finite value (`NaN`).  The source's `?? min` guards `null`, which
cannot occur after initialization; `NaN` is not caught by `??` and
poisons every derived quantity, which `Option.map` reproduces. -/
structure SliderState where
  rawSliderValue : Option ℚ
deriving DecidableEq

/-- The component-level `snappedValue`: quantization of the stored raw
value; a stored non-finite value yields a non-finite result. -/
def snappedValueOf (p : Props) (st : SliderState) : Option ℚ :=
  st.rawSliderValue.map (snappedValue p)

/-- Initialization `ref(props.modelValue ?? props.min)`. -/
def initRawSliderValue (p : Props) : ℚ :=
  p.modelValue.getD p.min

/-- The state at construction. -/
def initState (p : Props) : SliderState :=
  ⟨some (initRawSliderValue p)⟩

/-- The `watch(() => props.modelValue)` handler: substitute `min` for an
absent value, and overwrite `rawSliderValue` only when the substituted
value is out of sync with the derived `snappedValue`. -/
def setFromUpstream (p : Props) (st : SliderState) (value : Option ℚ) : SliderState :=
  let next : ℚ := value.getD p.min
  if some next ≠ snappedValueOf p st then ⟨some next⟩ else st

/-- Number of `update:modelValue` emissions produced by a state
transition: the `watch(snappedValue)` fires exactly when the derived
value changed. -/
def emissionsOnTransition (p : Props) (st st' : SliderState) : ℕ :=
  if snappedValueOf p st' ≠ snappedValueOf p st then 1 else 0

/-- Handler `onRangeInput`: stores `Number(event.target.value)` unconditionally
(no finiteness guard in the source). -/
def onRangeInput (_st : SliderState) (value : Option ℚ) : SliderState :=
  ⟨value⟩

/-- Handler `onNumberInput`: stores the parsed value only when
`Number.isFinite(value)`; otherwise the previous state is retained. -/
def onNumberInput (st : SliderState) (value : Option ℚ) : SliderState :=
  match value with
  | some x => ⟨some x⟩
  | none => st

/-- The computed `sliderValPercent`: `0` on a zero-span range (checked
before the raw value is read), otherwise the clamped raw position as a
percentage of the span.  A stored non-finite raw value poisons the
result. -/
def sliderValPercent (p : Props) (raw : Option ℚ) : Option ℚ :=
  let range : ℚ := p.max - p.min
  if range = 0 then some 0
  else raw.map (fun r => ((min p.max (max p.min r) - p.min) / range) * 100)

section Lemmas

/-- Monotonicity of `round` on `ℚ`. -/
theorem round_le_round_rat {a b : ℚ} (h : a ≤ b) : round a ≤ round b := by
  rw [round_eq, round_eq]
  exact Int.floor_le_floor (by linarith)

/-- A value that is integral at the step's precision is a fixed point of
`roundToStepPrecision`. -/
theorem roundToStepPrecision_fixed (p : Props) {v : ℚ} {n : ℤ}
    (hv : v * 10 ^ stepDecimals p = (n : ℚ)) :
    roundToStepPrecision p v = v := by
  have hf : (0:ℚ) < 10 ^ stepDecimals p := by positivity
  simp only [roundToStepPrecision]
  rw [hv, round_intCast, ← hv]
  field_simp

/-- Bounding: `roundToStepPrecision` keeps a value between two bounds that are both
integral at the step's precision. -/
theorem roundToStepPrecision_bounds (p : Props) {lo hi v : ℚ} {M X : ℤ}
    (hlo : lo * 10 ^ stepDecimals p = (M : ℚ))
    (hhi : hi * 10 ^ stepDecimals p = (X : ℚ))
    (h1 : lo ≤ v) (h2 : v ≤ hi) :
    lo ≤ roundToStepPrecision p v ∧ roundToStepPrecision p v ≤ hi := by
  have hf : (0:ℚ) < 10 ^ stepDecimals p := by positivity
  have hm1 : (M : ℚ) ≤ (round (v * 10 ^ stepDecimals p) : ℤ) := by
    have h := round_le_round_rat (mul_le_mul_of_nonneg_right h1 hf.le)
    rw [hlo, round_intCast] at h
    exact_mod_cast h
  have hm2 : ((round (v * 10 ^ stepDecimals p) : ℤ) : ℚ) ≤ (X : ℚ) := by
    have h := round_le_round_rat (mul_le_mul_of_nonneg_right h2 hf.le)
    rw [hhi, round_intCast] at h
    exact_mod_cast h
  have hlo' : lo = (M : ℚ) / 10 ^ stepDecimals p := by
    rw [← hlo]; field_simp
  have hhi' : hi = (X : ℚ) / 10 ^ stepDecimals p := by
    rw [← hhi]; field_simp
  simp only [roundToStepPrecision]
  refine ⟨?_, ?_⟩
  · rw [hlo']
    exact (div_le_div_iff_of_pos_right hf).mpr hm1
  · rw [hhi']
    exact (div_le_div_iff_of_pos_right hf).mpr hm2

/-- The clamp `min max (max min x)` lands in `[min, max]` whenever
`min ≤ max`. -/
theorem clamp_mem {mn mx x : ℚ} (h : mn ≤ mx) :
    mn ≤ min mx (max mn x) ∧ min mx (max mn x) ≤ mx :=
  ⟨le_min h (le_max_left mn x), min_le_left mx _⟩

/-- Unfolding: `snappedValue` written out with the falsy step fallback resolved
(`step ≠ 0`). -/
theorem snappedValue_closed (p : Props) (x : ℚ) (hs : p.step ≠ 0) :
    snappedValue p x =
      roundToStepPrecision p
        (min p.max (max p.min
          (p.min +
            ((round ((min p.max (max p.min x) - p.min) / p.step) : ℤ) : ℚ) * p.step))) := by
  simp only [snappedValue, if_neg hs]

/-- When the clamped raw position rounds to `k` steps from `min` and the
resulting lattice point lies in range and is integral at the step's
precision, `snappedValue` returns exactly that lattice point. -/
theorem snappedValue_eq_lattice (p : Props) {x c : ℚ} {k S : ℤ}
    (hs : p.step ≠ 0)
    (hcl : min p.max (max p.min x) = c)
    (hk : round ((c - p.min) / p.step) = k)
    (hlo : p.min ≤ p.min + (k : ℚ) * p.step)
    (hhi : p.min + (k : ℚ) * p.step ≤ p.max)
    (hexact : (p.min + (k : ℚ) * p.step) * 10 ^ stepDecimals p = (S : ℚ)) :
    snappedValue p x = p.min + (k : ℚ) * p.step := by
  rw [snappedValue_closed p x hs, hcl, hk, max_eq_right hlo, min_eq_right hhi,
    roundToStepPrecision_fixed p hexact]

end Lemmas

/-- C2 counterexample: with `min = 0.05`, `max = 10`, `step = 1`, the raw
position `0.05` quantizes to `0`, which lies below `min` — the final
precision rounding can leave `[min, max]` when `min` is not integral at
the step's decimal precision, so the claim as stated is false. -/
theorem C2_range_containment_cex :
    ¬ (Props.min { min := 1/20, max := 10, step := 1 } ≤
         snappedValue { min := 1/20, max := 10, step := 1 } (1/20) ∧
       snappedValue { min := 1/20, max := 10, step := 1 } (1/20) ≤
         Props.max { min := 1/20, max := 10, step := 1 }) := by
  have h : snappedValue { min := 1/20, max := 10, step := 1 } (1/20) = 0 := by
    norm_num [snappedValue, roundToStepPrecision, stepDecimals, pAdicCount,
      pAdicCountFuel, round_eq]
  rw [h]
  norm_num

/-- C2 (amended): for every range with `min ≤ max` and `step > 0` whose
endpoints are integral at the step's decimal precision
(`min * 10^d` and `max * 10^d` integers, `d = stepDecimals`), the
quantized value `snappedValue` of every raw position `x` lies within
`[min, max]`. -/
theorem C2_range_containment (p : Props) (x : ℚ) (M X : ℤ)
    (hmm : p.min ≤ p.max) (_hstep : 0 < p.step)
    (hM : p.min * 10 ^ stepDecimals p = (M : ℚ))
    (hX : p.max * 10 ^ stepDecimals p = (X : ℚ)) :
    p.min ≤ snappedValue p x ∧ snappedValue p x ≤ p.max := by
  simp only [snappedValue]
  exact roundToStepPrecision_bounds p hM hX (clamp_mem hmm).1 (clamp_mem hmm).2

/-- C2 witness: the amended containment theorem applied to the concrete
range `{min := 0, max := 10, step := 1}` at raw position `3.6`. -/
theorem C2_range_containment_witness :
    (0:ℚ) ≤ snappedValue { min := 0, max := 10, step := 1 } (18/5) ∧
    snappedValue { min := 0, max := 10, step := 1 } (18/5) ≤ 10 :=
  C2_range_containment { min := 0, max := 10, step := 1 } (18/5) 0 10
    (by norm_num) (by norm_num)
    (by norm_num [stepDecimals, pAdicCount, pAdicCountFuel])
    (by norm_num [stepDecimals, pAdicCount, pAdicCountFuel])

/-- C7: the six concrete quantization scenarios of the spec: with
`{min:0, max:10, step:1}` the raw inputs `3.6`, `-5`, `100` quantize to
`4`, `0`, `10`; with `{min:0, max:1, step:0.25}` the raw inputs `0.9`,
`0.1`, `0.4` quantize to `1.0`, `0.0`, `0.5`. -/
theorem C7_concrete_scenarios :
    snappedValue { min := 0, max := 10, step := 1 } (18/5) = 4 ∧
    snappedValue { min := 0, max := 10, step := 1 } (-5) = 0 ∧
    snappedValue { min := 0, max := 10, step := 1 } 100 = 10 ∧
    snappedValue { min := 0, max := 1, step := 1/4 } (9/10) = 1 ∧
    snappedValue { min := 0, max := 1, step := 1/4 } (1/10) = 0 ∧
    snappedValue { min := 0, max := 1, step := 1/4 } (2/5) = 1/2 := by
  refine ⟨?_, ?_, ?_, ?_, ?_, ?_⟩ <;>
    norm_num [snappedValue, roundToStepPrecision, stepDecimals, pAdicCount,
      pAdicCountFuel, round_eq]

/-- C1: when the derived quantized value equals `v`, the upstream watch
receiving `v` leaves the state unchanged and produces zero additional
`update:modelValue` emissions; and whenever the substituted incoming
value differs from the derived quantized value, `rawSliderValue` is
overwritten with it. -/
theorem C1_no_feedback_loop (p : Props) (st : SliderState) (v : ℚ)
    (h : snappedValueOf p st = some v) :
    setFromUpstream p st (some v) = st ∧
    emissionsOnTransition p st (setFromUpstream p st (some v)) = 0 ∧
    ∀ value : Option ℚ, some (value.getD p.min) ≠ snappedValueOf p st →
      (setFromUpstream p st value).rawSliderValue = some (value.getD p.min) := by
  have hst : setFromUpstream p st (some v) = st := by
    simp [setFromUpstream, h]
  refine ⟨hst, ?_, ?_⟩
  · rw [hst]
    simp [emissionsOnTransition]
  · intro value hne
    simp [setFromUpstream, hne]

/-- C1 witness: with default props and stored raw value `1`, the derived
value is `1`, and re-delivering `1` from upstream is a no-op with zero
emissions. -/
theorem C1_no_feedback_loop_witness :
    setFromUpstream {} ⟨some 1⟩ (some 1) = (⟨some 1⟩ : SliderState) ∧
    emissionsOnTransition {} ⟨some 1⟩ (setFromUpstream {} ⟨some 1⟩ (some 1)) = 0 := by
  have h : snappedValueOf {} (⟨some 1⟩ : SliderState) = some 1 := by
    norm_num [snappedValueOf, snappedValue, roundToStepPrecision, stepDecimals,
      pAdicCount, pAdicCountFuel, round_eq]
  exact ⟨(C1_no_feedback_loop {} ⟨some 1⟩ 1 h).1, (C1_no_feedback_loop {} ⟨some 1⟩ 1 h).2.1⟩

/-- C4 counterexample: with every prop left at its declared default, the
initial `rawSliderValue` is `1` (the declared `modelValue` default)
while `min` is `0` — the initial value does not default to `min`. -/
theorem C4_initialization_cex :
    initRawSliderValue {} = 1 ∧ Props.min {} = 0 ∧ (1 : ℚ) ≠ 0 := by
  refine ⟨rfl, rfl, by norm_num⟩

/-- C4 (amended): `rawSliderValue` is initialized from the upstream value
when one is present and from `min` when the upstream value is `null`;
but an omitted `modelValue` prop receives the declared default `1` (not
`min`), while `min`, `max`, `step` default to `0`, `100`, `1`. -/
theorem C4_initialization (p : Props) :
    (∀ v : ℚ, p.modelValue = some v → initRawSliderValue p = v) ∧
    (p.modelValue = none → initRawSliderValue p = p.min) ∧
    Props.min {} = 0 ∧ Props.max {} = 100 ∧ Props.step {} = 1 ∧
    Props.modelValue {} = some 1 ∧
    initState p = ⟨some (initRawSliderValue p)⟩ := by
  refine ⟨?_, ?_, rfl, rfl, rfl, rfl, rfl⟩
  · intro v hv
    simp [initRawSliderValue, hv]
  · intro hv
    simp [initRawSliderValue, hv]

/-- C4 witness: initialization from an explicit upstream value `5`, and
from `min` when the upstream value is `null`. -/
theorem C4_initialization_witness :
    initRawSliderValue { modelValue := some 5 } = 5 ∧
    initRawSliderValue { modelValue := none } = Props.min { modelValue := none } :=
  ⟨(C4_initialization { modelValue := some 5 }).1 5 rfl,
   (C4_initialization { modelValue := none }).2.1 rfl⟩

/-- C5 counterexample: the range-input handler has no finiteness guard —
delivering a non-finite value does not retain the previous
`rawSliderValue` (`some 0`) but overwrites it. -/
theorem C5_nonfinite_rejection_cex :
    onRangeInput ⟨some 0⟩ none ≠ (⟨some 0⟩ : SliderState) := by
  simp [onRangeInput]

/-- C5 (amended): only the number-input handler rejects non-finite values
silently (retaining the previous state); the range-input handler stores
whatever value the event carries, finite or not. -/
theorem C5_nonfinite_rejection (st : SliderState) (value : Option ℚ) :
    onNumberInput st none = st ∧
    (∀ x : ℚ, onNumberInput st (some x) = ⟨some x⟩) ∧
    onRangeInput st value = ⟨value⟩ :=
  ⟨rfl, fun _ => rfl, rfl⟩

/-- C8 counterexample: on the zero-width range `min = max = 0.5` with
`step = 1`, quantize returns `Math.round(0.5) = 1`, not `min` — the
final precision rounding moves `min` when it is not integral at the
step's decimal precision. -/
theorem C8_zero_width_cex :
    snappedValue { min := 1/2, max := 1/2, step := 1 } 0 = 1 ∧ (1:ℚ) ≠ 1/2 := by
  constructor
  · norm_num [snappedValue, roundToStepPrecision, stepDecimals, pAdicCount,
      pAdicCountFuel, round_eq]
  · norm_num

/-- C8 (amended): on a zero-width range (`min = max`), `sliderValPercent`
returns `0` for every raw position, and quantize returns
`roundToStepPrecision min` — which equals `min` exactly when `min` is
integral at the step's decimal precision (as in the spec's concrete
scenario `min = max = 5`, `step = 1`). -/
theorem C8_zero_width (p : Props) (x : ℚ) (raw : Option ℚ) (h : p.min = p.max) :
    sliderValPercent p raw = some 0 ∧
    snappedValue p x = roundToStepPrecision p p.min ∧
    (∀ n : ℤ, p.min * 10 ^ stepDecimals p = (n : ℚ) → snappedValue p x = p.min) := by
  have hr : p.max - p.min = 0 := by rw [← h, sub_self]
  have hclamp : ∀ y : ℚ, min p.max (max p.min y) = p.min := by
    intro y
    rw [← h]
    exact min_eq_left (le_max_left _ _)
  have hsnap : snappedValue p x = roundToStepPrecision p p.min := by
    simp only [snappedValue, hclamp, sub_self, zero_div, round_zero, Int.cast_zero,
      zero_mul, add_zero]
  refine ⟨by simp [sliderValPercent, hr], hsnap, ?_⟩
  intro n hn
  rw [hsnap, roundToStepPrecision_fixed p hn]

/-- C8 witness: the spec's concrete zero-width scenario
`{min := 5, max := 5, step := 1}` at raw position `3`. -/
theorem C8_zero_width_witness :
    sliderValPercent { min := 5, max := 5, step := 1 } (some 3) = some 0 ∧
    snappedValue { min := 5, max := 5, step := 1 } 3 = 5 := by
  have h := C8_zero_width { min := 5, max := 5, step := 1 } 3 (some 3) rfl
  exact ⟨h.1, h.2.2 5 (by norm_num [stepDecimals, pAdicCount, pAdicCountFuel])⟩

/-- C6 counterexample: a negative step is not remapped to `1` — the JS
falsy fallback `props.step || 1` only catches `0`.  With
`{min := 0, max := 10, step := -1}` the raw input `0.5` quantizes to
`0`, while with `step = 1` it quantizes to `1`. -/
theorem C6_step_fallback_cex :
    snappedValue { min := 0, max := 10, step := -1 } (1/2) ≠
      snappedValue { min := 0, max := 10, step := 1 } (1/2) := by
  have h1 : snappedValue { min := 0, max := 10, step := -1 } (1/2) = 0 := by
    norm_num [snappedValue, roundToStepPrecision, stepDecimals, pAdicCount,
      pAdicCountFuel, round_eq]
  have h2 : snappedValue { min := 0, max := 10, step := 1 } (1/2) = 1 := by
    norm_num [snappedValue, roundToStepPrecision, stepDecimals, pAdicCount,
      pAdicCountFuel, round_eq]
  rw [h1, h2]
  norm_num

/-- C6 (amended): `step = 0` (the only falsy numeric step) is treated
exactly as `step = 1` by quantization, so the divisor in use is never
zero, and a zero-span range short-circuits `sliderValPercent` to `0`;
negative steps, however, are not remapped. -/
theorem C6_degenerate_ranges (p : Props) (x : ℚ) (raw : Option ℚ) :
    (p.step = 0 → snappedValue p x = snappedValue { p with step := 1 } x) ∧
    (p.min = p.max → sliderValPercent p raw = some 0) := by
  constructor
  · intro h0
    simp [snappedValue, roundToStepPrecision, stepDecimals, h0]
  · intro h
    have hr : p.max - p.min = 0 := by rw [← h, sub_self]
    simp [sliderValPercent, hr]

/-- C6 witness: with `step = 0` the raw input `3.6` on `[0, 10]`
quantizes exactly as with `step = 1`, and a zero-span range yields a
`0` fill percentage. -/
theorem C6_degenerate_ranges_witness :
    snappedValue { min := 0, max := 10, step := 0 } (18/5) =
      snappedValue { min := 0, max := 10, step := 1 } (18/5) ∧
    sliderValPercent { min := 5, max := 5, step := 0 } (some 3) = some 0 := by
  constructor
  · exact (C6_degenerate_ranges { min := 0, max := 10, step := 0 } (18/5) none).1 rfl
  · exact (C6_degenerate_ranges { min := 5, max := 5, step := 0 } 0 (some 3)).2 rfl

/-- C9: with `step = 0.1` on `[0, 100]`, quantization of any raw value
near `1.7` (in `[1.65, 1.75)`) — including repeated re-quantization —
yields exactly the decimal `1.7`: the result is rounded to the one
decimal digit of `step` by scaling by `10`, rounding, and dividing
back. -/
theorem C9_precision_stability (x : ℚ) (h1 : 33/20 ≤ x) (h2 : x < 35/20) :
    snappedValue { min := 0, max := 100, step := 1/10 } x = 17/10 ∧
    snappedValue { min := 0, max := 100, step := 1/10 }
      (snappedValue { min := 0, max := 100, step := 1/10 } x) = 17/10 := by
  have key : ∀ y : ℚ, 33/20 ≤ y → y < 35/20 →
      snappedValue { min := 0, max := 100, step := 1/10 } y = 17/10 := by
    intro y hy1 hy2
    have hcl : min (Props.max { min := 0, max := 100, step := 1/10 })
        (max (Props.min { min := 0, max := 100, step := 1/10 }) y) = y := by
      show min (100:ℚ) (max 0 y) = y
      rw [max_eq_right (by linarith), min_eq_right (by linarith)]
    have hk : round ((y - Props.min { min := 0, max := 100, step := 1/10 }) /
        Props.step { min := 0, max := 100, step := 1/10 }) = (17 : ℤ) := by
      show round ((y - 0) / (1/10 : ℚ)) = 17
      have harg : (y - 0) / (1/10 : ℚ) = 10 * y := by ring
      rw [harg, round_eq, Int.floor_eq_iff]
      constructor
      · push_cast
        linarith
      · push_cast
        linarith
    have h := snappedValue_eq_lattice { min := 0, max := 100, step := 1/10 }
      (S := 17) (by norm_num) hcl hk (by norm_num) (by norm_num)
      (by norm_num [stepDecimals, pAdicCount, pAdicCountFuel])
    rw [h]
    norm_num
  refine ⟨key x h1 h2, ?_⟩
  rw [key x h1 h2]
  exact key (17/10) (by norm_num) (by norm_num)

/-- C9 witness: the theorem applied at the raw value `1.68`. -/
theorem C9_precision_stability_witness :
    snappedValue { min := 0, max := 100, step := 1/10 } (168/100) = 17/10 ∧
    snappedValue { min := 0, max := 100, step := 1/10 }
      (snappedValue { min := 0, max := 100, step := 1/10 } (168/100)) = 17/10 :=
  C9_precision_stability (168/100) (by norm_num) (by norm_num)

/-- C10 counterexample: with `min = 0.05`, `max = 10`, `step = 0.1` the
clamped raw position `0.1` lies exactly midway between the in-range
lattice points `0.05` and `0.15`, yet `snappedValue` returns `0.2` —
the final precision rounding moves the result off the upper lattice
neighbor, so the claim as stated is false. -/
theorem C10_half_step_tiebreak_cex :
    (min (10:ℚ) (max (1/20) (1/10)) = 1/20 + ((0:ℚ) + 1/2) * (1/10)) ∧
    ((1/20 : ℚ) + ((0:ℚ) + 1) * (1/10) ≤ 10) ∧
    snappedValue { min := 1/20, max := 10, step := 1/10 } (1/10) ≠
      1/20 + ((0:ℚ) + 1) * (1/10) := by
  refine ⟨by norm_num, by norm_num, ?_⟩
  have h : snappedValue { min := 1/20, max := 10, step := 1/10 } (1/10) = 1/5 := by
    norm_num [snappedValue, roundToStepPrecision, stepDecimals, pAdicCount,
      pAdicCountFuel, round_eq]
  rw [h]
  norm_num

/-- C10 (amended): for every range with `step > 0` whose `min` and `step`
are integral at the step's decimal precision, whenever the clamped raw
position lies exactly midway between the adjacent lattice points
`min + k*step` and `min + (k+1)*step`, both within `[min, max]`,
`snappedValue` snaps to the larger one, `min + (k+1)*step`
(`Math.round` rounds half-values toward `+∞`). -/
theorem C10_half_step_tiebreak (p : Props) (x : ℚ) (k : ℕ) (M S : ℤ)
    (hs : 0 < p.step)
    (hM : p.min * 10 ^ stepDecimals p = (M : ℚ))
    (hS : p.step * 10 ^ stepDecimals p = (S : ℚ))
    (hmid : min p.max (max p.min x) = p.min + ((k : ℚ) + 1/2) * p.step)
    (hin : p.min + ((k : ℚ) + 1) * p.step ≤ p.max) :
    snappedValue p x = p.min + ((k : ℚ) + 1) * p.step := by
  have hk : round ((p.min + ((k : ℚ) + 1/2) * p.step - p.min) / p.step) = (k : ℤ) + 1 := by
    have harg : (p.min + ((k : ℚ) + 1/2) * p.step - p.min) / p.step = (k : ℚ) + 1/2 := by
      field_simp
      ring
    rw [harg, round_eq]
    have h2 : (k : ℚ) + 1/2 + 1/2 = (((k : ℤ) + 1 : ℤ) : ℚ) := by
      push_cast
      ring
    rw [h2, Int.floor_intCast]
  have hlo : p.min ≤ p.min + (((k : ℤ) + 1 : ℤ) : ℚ) * p.step := by
    have hnn : (0:ℚ) ≤ (((k : ℤ) + 1 : ℤ) : ℚ) * p.step := by
      apply mul_nonneg _ hs.le
      push_cast
      positivity
    linarith
  have hhi : p.min + (((k : ℤ) + 1 : ℤ) : ℚ) * p.step ≤ p.max := by
    push_cast
    linarith
  have hex : (p.min + (((k : ℤ) + 1 : ℤ) : ℚ) * p.step) * 10 ^ stepDecimals p
      = ((M + ((k : ℤ) + 1) * S : ℤ) : ℚ) := by
    have hsplit : (p.min + (((k : ℤ) + 1 : ℤ) : ℚ) * p.step) * 10 ^ stepDecimals p
        = p.min * 10 ^ stepDecimals p
          + (((k : ℤ) + 1 : ℤ) : ℚ) * (p.step * 10 ^ stepDecimals p) := by
      ring
    rw [hsplit, hM, hS]
    push_cast
    ring
  have h := snappedValue_eq_lattice p (ne_of_gt hs) hmid hk hlo hhi hex
  rw [h]
  push_cast
  ring

/-- C10 witness: with `{min := 0, max := 10, step := 1}` the clamped raw
position `0.5` is midway between `0` and `1`, and quantizes to `1`. -/
theorem C10_half_step_tiebreak_witness :
    snappedValue { min := 0, max := 10, step := 1 } (1/2) =
      (0 : ℚ) + ((0 : ℚ) + 1) * 1 := by
  have h := C10_half_step_tiebreak { min := 0, max := 10, step := 1 } (1/2) 0 0 1
    (by norm_num)
    (by norm_num [stepDecimals, pAdicCount, pAdicCountFuel])
    (by norm_num [stepDecimals, pAdicCount, pAdicCountFuel])
    (by norm_num)
    (by norm_num)
  exact h

/-- C3 counterexample: with `min = 0.05`, `max = 10`, `step = 0.1`,
quantize is not idempotent: `quantize(0.05) = 0.1` but
`quantize(0.1) = 0.2` — the precision rounding pushes a lattice point
anchored at an inexact `min` onto a half-step boundary, which the next
pass rounds up again. -/
theorem C3_idempotence_cex :
    snappedValue { min := 1/20, max := 10, step := 1/10 }
      (snappedValue { min := 1/20, max := 10, step := 1/10 } (1/20)) ≠
    snappedValue { min := 1/20, max := 10, step := 1/10 } (1/20) := by
  have h1 : snappedValue { min := 1/20, max := 10, step := 1/10 } (1/20) = 1/10 := by
    norm_num [snappedValue, roundToStepPrecision, stepDecimals, pAdicCount,
      pAdicCountFuel, round_eq]
  have h2 : snappedValue { min := 1/20, max := 10, step := 1/10 } (1/10) = 1/5 := by
    norm_num [snappedValue, roundToStepPrecision, stepDecimals, pAdicCount,
      pAdicCountFuel, round_eq]
  rw [h1, h2]
  norm_num

/-- C3 (amended): quantize is idempotent for every valid range
(`min ≤ max`, `step > 0`) whose `min` and `step` are integral at the
step's decimal precision (`min*10^d` and `step*10^d` integers,
`d = stepDecimals`) and every real raw position `x`; `max` may be an
arbitrary real.  When the snapped lattice point overshoots `max`, both
passes return the precision-rounded `max` — if that value falls below
`max`, the half-up rounding parity forces the second pass to overshoot
again. -/
theorem C3_idempotence (p : Props) (x : ℚ) (M S : ℤ)
    (hmm : p.min ≤ p.max) (hs : 0 < p.step)
    (hM : p.min * 10 ^ stepDecimals p = (M : ℚ))
    (hS : p.step * 10 ^ stepDecimals p = (S : ℚ)) :
    snappedValue p (snappedValue p x) = snappedValue p x := by
  have hs0 : p.step ≠ 0 := ne_of_gt hs
  have hF : (0:ℚ) < 10 ^ stepDecimals p := by positivity
  have hSpos : (0:ℚ) < (S : ℚ) := by
    rw [← hS]
    positivity
  have hlat_exact : ∀ k : ℤ, (p.min + (k : ℚ) * p.step) * 10 ^ stepDecimals p
      = ((M + k * S : ℤ) : ℚ) := by
    intro k
    have hsplit : (p.min + (k : ℚ) * p.step) * 10 ^ stepDecimals p
        = p.min * 10 ^ stepDecimals p + (k : ℚ) * (p.step * 10 ^ stepDecimals p) := by
      ring
    rw [hsplit, hM, hS]
    push_cast
    ring
  set c1 : ℚ := min p.max (max p.min x) with hc1
  set k1 : ℤ := round ((c1 - p.min) / p.step) with hk1
  set s1 : ℚ := p.min + (k1 : ℚ) * p.step with hs1
  set c2 : ℚ := min p.max (max p.min s1) with hc2
  have hc1hi : c1 ≤ p.max := by
    rw [hc1]
    exact (clamp_mem hmm).2
  have hfirst : snappedValue p x = roundToStepPrecision p c2 := by
    rw [snappedValue_closed p x hs0, ← hc1, ← hk1, ← hs1, ← hc2]
  rw [hfirst]
  rcases le_or_lt s1 p.max with hA | hC
  · rcases le_or_lt p.min s1 with hB | hB
    · -- the snapped lattice point lies in range: an exact fixed point
      have hc2s : c2 = s1 := by
        rw [hc2, max_eq_right hB, min_eq_right hA]
      have hy : roundToStepPrecision p c2 = s1 := by
        rw [hc2s, hs1]
        exact roundToStepPrecision_fixed p (hlat_exact k1)
      rw [hy]
      have hcl : min p.max (max p.min s1) = s1 := by
        rw [max_eq_right hB, min_eq_right hA]
      have hk2 : round ((s1 - p.min) / p.step) = k1 := by
        rw [hs1]
        have harg : (p.min + (k1 : ℚ) * p.step - p.min) / p.step = (k1 : ℚ) := by
          field_simp
        rw [harg, round_intCast]
      have hlo : p.min ≤ p.min + (k1 : ℚ) * p.step := by
        rw [← hs1]
        exact hB
      have hhi : p.min + (k1 : ℚ) * p.step ≤ p.max := by
        rw [← hs1]
        exact hA
      have hres := snappedValue_eq_lattice p hs0 hcl hk2 hlo hhi (hlat_exact k1)
      rw [hres, hs1]
    · -- the snapped lattice point undershoots: both passes return min
      have hc2m : c2 = p.min := by
        rw [hc2, max_eq_left hB.le, min_eq_right hmm]
      have hy : roundToStepPrecision p c2 = p.min := by
        rw [hc2m]
        exact roundToStepPrecision_fixed p hM
      rw [hy]
      have hcl : min p.max (max p.min p.min) = p.min := by
        rw [max_self, min_eq_right hmm]
      have hk2 : round ((p.min - p.min) / p.step) = (0 : ℤ) := by
        rw [sub_self, zero_div, round_zero]
      have hlo : p.min ≤ p.min + ((0 : ℤ) : ℚ) * p.step := by
        push_cast
        linarith
      have hhi : p.min + ((0 : ℤ) : ℚ) * p.step ≤ p.max := by
        push_cast
        linarith
      have hres := snappedValue_eq_lattice p hs0 hcl hk2 hlo hhi (hlat_exact 0)
      rw [hres]
      push_cast
      ring
  · -- the snapped lattice point overshoots: both passes return the
    -- precision-rounded max
    have hc2m : c2 = p.max := by
      rw [hc2, max_eq_right (le_trans hmm hC.le), min_eq_left hC.le]
    rw [hc2m]
    set R : ℤ := round (p.max * 10 ^ stepDecimals p) with hRdef
    have hmhat : roundToStepPrecision p p.max = (R : ℚ) / 10 ^ stepDecimals p := by
      simp only [roundToStepPrecision]
    rw [hmhat]
    have hRup : (R : ℚ) ≤ p.max * 10 ^ stepDecimals p + 1/2 := by
      rw [hRdef, round_eq]
      have h := Int.floor_le (p.max * 10 ^ stepDecimals p + 1/2)
      linarith
    have hRlow : p.max * 10 ^ stepDecimals p - 1/2 < (R : ℚ) := by
      rw [hRdef, round_eq]
      have h := Int.sub_one_lt_floor (p.max * 10 ^ stepDecimals p + 1/2)
      linarith
    have hmn_le_mhat : p.min ≤ (R : ℚ) / 10 ^ stepDecimals p := by
      have hMR : M ≤ R := by
        have h := round_le_round_rat (mul_le_mul_of_nonneg_right hmm hF.le)
        rw [hM, round_intCast, ← hRdef] at h
        exact h
      rw [le_div_iff₀ hF, hM]
      exact_mod_cast hMR
    have ht : (p.max - p.min) / p.step < (k1 : ℚ) := by
      rw [div_lt_iff₀ hs]
      have hgt : p.max < p.min + (k1 : ℚ) * p.step := by
        rw [← hs1]
        exact hC
      linarith
    set K : ℤ := round ((p.max - p.min) / p.step) with hKdef
    have hk1K : k1 ≤ K := by
      rw [hk1, hKdef]
      apply round_le_round_rat
      exact (div_le_div_iff_of_pos_right hs).mpr (by linarith)
    have htK : (p.max - p.min) / p.step < (K : ℚ) :=
      lt_of_lt_of_le ht (by exact_mod_cast hk1K)
    have hs2K : p.max < p.min + (K : ℚ) * p.step := by
      rw [div_lt_iff₀ hs] at htK
      linarith
    rcases le_or_lt p.max ((R : ℚ) / 10 ^ stepDecimals p) with hCm | hCm
    · -- the rounded max is at or above max: the second pass clamps to
      -- max and overshoots again
      rw [snappedValue_closed p _ hs0, max_eq_right hmn_le_mhat, min_eq_left hCm,
        ← hKdef, max_eq_right (le_trans hmm hs2K.le), min_eq_left hs2K.le]
      exact hmhat
    · -- the rounded max fell below max: the fractional part of
      -- max * 10^d lies in (0, 1/2), so the second rounding of steps
      -- from min agrees with the first and overshoots again
      have hmn_div : p.min = (M : ℚ) / 10 ^ stepDecimals p := by
        rw [← hM]
        field_simp
      have hstep_div : p.step = (S : ℚ) / 10 ^ stepDecimals p := by
        rw [← hS]
        field_simp
      have hr1 : (R : ℚ) < p.max * 10 ^ stepDecimals p := by
        rw [div_lt_iff₀ hF] at hCm
        linarith
      have ht_eq : (p.max - p.min) / p.step
          = (p.max * 10 ^ stepDecimals p - (M : ℚ)) / (S : ℚ) := by
        rw [hmn_div, hstep_div]
        rw [div_eq_div_iff (by positivity) (ne_of_gt hSpos)]
        field_simp
      have hw : ((R : ℚ) / 10 ^ stepDecimals p - p.min) / p.step
          = ((R : ℚ) - (M : ℚ)) / (S : ℚ) := by
        rw [hmn_div, hstep_div]
        rw [div_eq_div_iff (by positivity) (ne_of_gt hSpos)]
        field_simp
      set k2 : ℤ := round (((R : ℚ) - (M : ℚ)) / (S : ℚ)) with hk2def
      have hk2a : (k2 : ℚ) ≤ ((R : ℚ) - M) / S + 1/2 := by
        rw [hk2def, round_eq]
        exact Int.floor_le _
      have hk2b : ((R : ℚ) - M) / S + 1/2 < (k2 : ℚ) + 1 := by
        rw [hk2def, round_eq]
        exact Int.lt_floor_add_one _
      have hint : 2 * (R - M) + S + 1 ≤ 2 * S * (k2 + 1) := by
        have hmul : (R : ℚ) - M < ((k2 : ℚ) + 1/2) * S :=
          (div_lt_iff₀ hSpos).mp (by linarith)
        have h2 : (2 * (R - M) + S : ℤ) < 2 * S * (k2 + 1) := by
          have : ((2 * (R - M) + S : ℤ) : ℚ) < ((2 * S * (k2 + 1) : ℤ) : ℚ) := by
            push_cast
            linarith
          exact_mod_cast this
        exact Int.lt_iff_add_one_le.mp h2
      have hK2 : K = k2 := by
        rw [hKdef, ht_eq, round_eq, Int.floor_eq_iff]
        constructor
        · have hRz : ((R : ℚ) - M) / S ≤ (p.max * 10 ^ stepDecimals p - M) / S :=
            (div_le_div_iff_of_pos_right hSpos).mpr (by linarith)
          linarith
        · have hcast : 2 * ((R : ℚ) - M) + S + 1 ≤ 2 * S * ((k2 : ℚ) + 1) := by
            exact_mod_cast hint
          have hgoal : (p.max * 10 ^ stepDecimals p - (M : ℚ)) / S < (k2 : ℚ) + 1/2 := by
            rw [div_lt_iff₀ hSpos]
            linarith
          linarith
      have hs2k2 : p.max < p.min + (k2 : ℚ) * p.step := by
        rw [← hK2]
        exact hs2K
      rw [snappedValue_closed p _ hs0, max_eq_right hmn_le_mhat, min_eq_right hCm.le,
        hw, ← hk2def, max_eq_right (le_trans hmm hs2k2.le), min_eq_left hs2k2.le]
      exact hmhat

/-- C3 witness: the amended idempotence theorem applied to a range with
a non-integral `max` — `{min := 0, max := 0.6, step := 1}` at raw
position `0.9` — exercising the overshoot case the weaker hypotheses
now cover. -/
theorem C3_idempotence_witness :
    snappedValue { min := 0, max := 3/5, step := 1 }
      (snappedValue { min := 0, max := 3/5, step := 1 } (9/10)) =
    snappedValue { min := 0, max := 3/5, step := 1 } (9/10) :=
  C3_idempotence { min := 0, max := 3/5, step := 1 } (9/10) 0 1
    (by norm_num) (by norm_num)
    (by norm_num [stepDecimals, pAdicCount, pAdicCountFuel])
    (by norm_num [stepDecimals, pAdicCount, pAdicCountFuel])

end Slider
